import Mathlib

/-!
Verification of the worker scheduling loop, rescaling bootstrap and startup
configuration of the strymon-system/timely-dataflow runtime, as a shallow
embedding of `src/timely/src/worker.rs`, `src/communication/src/initialize.rs`
and `src/communication/src/allocator/mod.rs`.

Machine maps (`std::collections::HashMap`) are embedded as association lists
with unique keys; `insert` replaces any previous binding, `find?` returns the
current binding.  Allocator calls that only touch transport state (rescale,
receive, await_events, release) have no effect on the worker-visible state and
are recorded in an explicit call trace, so that ordering claims about the step
loop can be stated.
-/

namespace Timely

/-- Machine map model: lookup in an association list (`HashMap::get`). -/
def mapFind (m : List (Nat × α)) (k : Nat) : Option α :=
  (m.find? (fun p => p.1 == k)).map (fun p => p.2)

/-- Machine map model: `HashMap::insert`, replacing any previous binding of `k`. -/
def mapInsert (m : List (Nat × α)) (k : Nat) (v : α) : List (Nat × α) :=
  (k, v) :: m.filter (fun p => p.1 != k)

/-- Machine map model: `HashMap::remove`. -/
def mapRemove (m : List (Nat × α)) (k : Nat) : List (Nat × α) :=
  m.filter (fun p => p.1 != k)

/-- Number of entries stored under key `k`. -/
def countKey (m : List (Nat × α)) (k : Nat) : Nat :=
  (m.filter (fun p => p.1 == k)).length

@[simp] theorem mapFind_nil (k : Nat) : mapFind ([] : List (Nat × α)) k = none := rfl

theorem mapFind_cons (p : Nat × α) (m : List (Nat × α)) (k : Nat) :
    mapFind (p :: m) k = if p.1 = k then some p.2 else mapFind m k := by
  by_cases h : p.1 = k
  · have hb : (p.1 == k) = true := by simp [h]
    simp [mapFind, List.find?, hb, h]
  · have hb : (p.1 == k) = false := by simp [h]
    simp [mapFind, List.find?, hb, h]

@[simp] theorem mapFind_insert_self (m : List (Nat × α)) (k : Nat) (v : α) :
    mapFind (mapInsert m k v) k = some v := by
  simp [mapInsert, mapFind_cons]

theorem mapFind_filter_ne (m : List (Nat × α)) (j k : Nat) (h : k ≠ j) :
    mapFind (m.filter (fun p => p.1 != j)) k = mapFind m k := by
  induction m with
  | nil => rfl
  | cons p m ih =>
    by_cases hp : p.1 = j
    · have hne : (p.1 != j) = false := by simp [hp]
      have hk : ¬ p.1 = k := fun hk' => h (hk'.symm.trans hp)
      simp only [List.filter_cons, hne, Bool.false_eq_true, if_false]
      rw [ih, mapFind_cons, if_neg hk]
    · have hne : (p.1 != j) = true := by simp [hp]
      simp only [List.filter_cons, hne, if_true]
      rw [mapFind_cons, mapFind_cons, ih]

@[simp] theorem mapFind_insert_ne (m : List (Nat × α)) (j k : Nat) (v : α) (h : k ≠ j) :
    mapFind (mapInsert m j v) k = mapFind m k := by
  rw [mapInsert, mapFind_cons]
  rw [if_neg (fun hj : (j, v).1 = k => h (hj.symm))]
  exact mapFind_filter_ne m j k h

@[simp] theorem mapFind_remove_self (m : List (Nat × α)) (k : Nat) :
    mapFind (mapRemove m k) k = none := by
  induction m with
  | nil => rfl
  | cons p m ih =>
    by_cases hp : p.1 = k
    · have : (p.1 != k) = false := by simp [hp]
      simp only [mapRemove, List.filter_cons, this, if_false]
      exact ih
    · have : (p.1 != k) = true := by simp [hp]
      simp only [mapRemove, List.filter_cons, this, if_true]
      rw [mapFind_cons, if_neg hp]
      exact ih

@[simp] theorem mapFind_remove_ne (m : List (Nat × α)) (j k : Nat) (h : k ≠ j) :
    mapFind (mapRemove m j) k = mapFind m k :=
  mapFind_filter_ne m j k h

theorem mapFind_remove_some (m : List (Nat × α)) (j k : Nat) (v : α)
    (h : mapFind (mapRemove m j) k = some v) : mapFind m k = some v := by
  by_cases hk : k = j
  · rw [hk, mapFind_remove_self] at h; exact absurd h (by simp)
  · rwa [mapFind_remove_ne m j k hk] at h

theorem mapFind_insert_some (m : List (Nat × α)) (j k : Nat) (v w : α)
    (h : mapFind (mapInsert m j v) k = some w) :
    (k = j ∧ w = v) ∨ mapFind m k = some w := by
  by_cases hk : k = j
  · subst hk
    rw [mapFind_insert_self] at h
    exact Or.inl ⟨rfl, (Option.some.injEq _ _ ▸ h).symm⟩
  · rw [mapFind_insert_ne m j k v hk] at h
    exact Or.inr h

@[simp] theorem countKey_insert_self (m : List (Nat × α)) (k : Nat) (v : α) :
    countKey (mapInsert m k v) k = 1 := by
  simp only [countKey, mapInsert, List.filter_cons]
  have hk : (k == k) = true := by simp
  simp only [hk, if_true]
  have : ∀ l : List (Nat × α), (l.filter (fun p => p.1 != k)).filter (fun p => p.1 == k) = [] := by
    intro l
    induction l with
    | nil => rfl
    | cons p l ih =>
      by_cases hp : p.1 = k
      · simp [List.filter_cons, hp, ih]
      · simp [List.filter_cons, hp, ih]
  simp [this]

theorem mapFind_mem (m : List (Nat × α)) (k : Nat) (v : α)
    (h : mapFind m k = some v) : (k, v) ∈ m := by
  induction m with
  | nil => simp [mapFind] at h
  | cons p m ih =>
    rw [mapFind_cons] at h
    by_cases hp : p.1 = k
    · rw [if_pos hp] at h
      have hv : p.2 = v := Option.some.inj h
      have hpv : p = (k, v) := by
        cases p
        simp_all
      rw [← hpv]
      exact List.mem_cons_self _ _
    · rw [if_neg hp] at h
      exact List.mem_cons_of_mem _ (ih h)

/-!  ## The worker data model (`src/timely/src/worker.rs`)  -/

/-- A communication channel event
(`src/communication/src/allocator/mod.rs`, `enum Event`). -/
inductive Event
  /-- A number of messages pushed into the channel. -/
  | Pushed (n : Nat)
  /-- A number of messages pulled from the channel. -/
  | Pulled (n : Nat)
deriving DecidableEq, Repr

/-- Modelled from the spec: the scheduler's activation tracker
(`crate::scheduling::Activations` is not under `src/`; §4.3 of the spec:
an activation set of address paths; `activate(path)` marks the operator at
`path` runnable; `advance()` rotates any delayed activations into the current
epoch; `for_extensions(prefix, sink)` yields all activations whose path begins
with `prefix`, removing them). -/
structure Activations where
  /-- Activations runnable in the current epoch. -/
  current : List (List Nat)
  /-- Activations delayed to a later epoch. -/
  delayed : List (List Nat)
deriving DecidableEq, Repr

/-- Modelled from the spec: `Activations::activate` marks `path` runnable. -/
def Activations.activate (a : Activations) (path : List Nat) : Activations :=
  { a with current := a.current ++ [path] }

/-- Modelled from the spec: `Activations::advance` rotates delayed activations
into the current epoch. -/
def Activations.advance (a : Activations) : Activations :=
  { current := a.current ++ a.delayed, delayed := [] }

/-- Modelled from the spec: whether no activation is pending. -/
def Activations.isEmpty (a : Activations) : Bool :=
  a.current.isEmpty && a.delayed.isEmpty

/-- Modelled from the spec: `for_extensions(&[], sink)` yields the first path
element of every current activation (the dataflow indices to schedule),
removing the matched activations. -/
def Activations.extractRoot (a : Activations) : List Nat × Activations :=
  (a.current.filterMap List.head?, { a with current := [] })

/-- The per-dataflow record (`worker.rs`, `struct Wrapper`).  The operator
behind `Box<Schedule>` is user code; it is embedded by the list of results its
successive `schedule()` calls return (`true` = incomplete), which is the only
part of it the worker observes. -/
structure Wrapper where
  identifier : Nat
  /-- Remaining `schedule()` results behind `Option<Box<Schedule>>`; `none` once dropped. -/
  operate : Option (List Bool)
  /-- Opaque user resources behind `Option<Box<Any>>`; `none` once dropped. -/
  resources : Option Unit
  channel_ids : List Nat
deriving DecidableEq, Repr

/-- Model of `Wrapper::step` (`worker.rs` lines 582-601): invoke `schedule()`; when the
operator reports complete, drop the operator first and the resources second. -/
def Wrapper.step (w : Wrapper) : Bool × Wrapper :=
  let incomplete :=
    match w.operate with
    | none => false
    | some behav => behav.headD false
  if incomplete then
    (true, { w with operate := w.operate.map List.tail })
  else
    (false, { w with operate := none, resources := none })

/-- One observable call made by the worker during `step_or_park`, recorded so
that ordering claims about the step loop can be stated. -/
inductive Action
  /-- The `allocator.rescale(..)` call. -/
  | rescale
  /-- The `allocator.receive()` call. -/
  | receive
  /-- An `activate(&path)` call on the activation set for a drained event. -/
  | activateAt (path : List Nat)
  /-- The `advance()` call on the activation set. -/
  | advance
  /-- The `allocator.await_events(duration)` call (parking). -/
  | park (d : Option Nat)
  /-- a `schedule()` call on the dataflow at `idx` -/
  | scheduleStart (idx : Nat)
  /-- the operator of dataflow `idx` is dropped (`operate = None`) -/
  | dropOperator (idx : Nat)
  /-- the resources of dataflow `idx` are dropped (`resources = None`) -/
  | dropResources (idx : Nat)
  /-- The `allocator.release()` call. -/
  | release
deriving DecidableEq, Repr

/-- The worker-thread state of `struct Worker` (`worker.rs`).  `Duration` is
embedded as `Option Nat` (`none` = park indefinitely, `some 0` = zero timeout);
allocator-internal transport state is outside the worker and appears only
through the recorded `Action` trace and the shared event queue. -/
structure WorkerState where
  /-- Source field `paths` — channel id to address path. -/
  paths : List (Nat × List Nat)
  /-- Source field `temp_channel_ids`: channels allocated during dataflow construction. -/
  tempChannelIds : List Nat
  /-- Source field `dataflows`, the registered dataflows by index. -/
  dataflows : List (Nat × Wrapper)
  /-- Source field `dataflow_counter`. -/
  dataflowCounter : Nat
  /-- Source field `identifiers`. -/
  identifiers : Nat
  /-- Source field `activations`, the shared activation set. -/
  activations : Activations
  /-- the shared event queue `allocator.events()`. -/
  events : List (Nat × Event)
deriving DecidableEq, Repr

/-- Model of `Worker::new`: all maps and queues empty. -/
def Worker.new : WorkerState :=
  { paths := [], tempChannelIds := [], dataflows := [], dataflowCounter := 0,
    identifiers := 0, activations := { current := [], delayed := [] }, events := [] }

/-- Model of `allocate` in `impl AsWorker for Worker` (`worker.rs` lines 88-96): panic on an
empty address (embedded as `Except.error`) before touching any state; else
record the path and remember the channel id for the dataflow being built. -/
def Worker.allocate (id : Nat) (addr : List Nat) (s : WorkerState) :
    Except String WorkerState :=
  if addr = [] then .error "Unacceptable address: Length zero"
  else .ok { s with paths := mapInsert s.paths id addr,
                    tempChannelIds := s.tempChannelIds ++ [id] }

/-- Model of `pipeline` in `impl AsWorker for Worker` (`worker.rs` lines 98-104): identical
worker-visible state effect to `allocate`; the allocator-side construction
differs but is outside the worker state. -/
def Worker.pipeline (id : Nat) (addr : List Nat) (s : WorkerState) :
    Except String WorkerState :=
  if addr = [] then .error "Unacceptable address: Length zero"
  else .ok { s with paths := mapInsert s.paths id addr,
                    tempChannelIds := s.tempChannelIds ++ [id] }

/-- The activation paths produced by draining the event queue
(`worker.rs` lines 207-222): for each drained `(channel, _event)`, the path
registered for `channel`, skipping unregistered channels. -/
def drainActivations (events : List (Nat × Event)) (paths : List (Nat × List Nat)) :
    List (List Nat) :=
  events.filterMap (fun e => mapFind paths e.1)

/-- The scheduling loop over active dataflow indices
(`worker.rs` lines 251-264): for each index in turn, if the dataflow exists,
step it; when it reports complete, remove its channel ids from the path map and
unregister the dataflow.  Returns the updated dataflow registry, the updated
path map, and the trace of `schedule()`/drop calls. -/
def scheduleDataflows :
    List Nat → List (Nat × Wrapper) → List (Nat × List Nat) →
    List (Nat × Wrapper) × List (Nat × List Nat) × List Action
  | [], dfs, paths => (dfs, paths, [])
  | idx :: rest, dfs, paths =>
    match mapFind dfs idx with
    | none => scheduleDataflows rest dfs paths
    | some w =>
      if (Wrapper.step w).1 then
        let r := scheduleDataflows rest (mapInsert dfs idx (Wrapper.step w).2) paths
        (r.1, r.2.1, Action.scheduleStart idx :: r.2.2)
      else
        let paths' := (Wrapper.step w).2.channel_ids.foldl mapRemove paths
        let r := scheduleDataflows rest (mapRemove dfs idx) paths'
        (r.1, r.2.1,
         Action.scheduleStart idx :: Action.dropOperator idx ::
           Action.dropResources idx :: r.2.2)

/-- The first phase of `Worker::step_or_park` (`worker.rs` lines 193-228):
`rescale`, `receive`, drain the event queue activating each registered
channel's path, then `advance` the activations. -/
def Worker.preSchedule (s : WorkerState) : WorkerState × List Action :=
  let actPaths := drainActivations s.events s.paths
  ({ s with events := [],
            activations := (actPaths.foldl Activations.activate s.activations).advance },
   Action.rescale :: Action.receive ::
     (actPaths.map Action.activateAt ++ [Action.advance]))

/-- The parking condition of `Worker::step_or_park` (`worker.rs` line 231):
no pending activations, some dataflows, and a non-zero timeout. -/
def Worker.parkCondition (d : Option Nat) (s1 : WorkerState) : Bool :=
  s1.activations.isEmpty && !s1.dataflows.isEmpty && decide (d ≠ some 0)

/-- Model of `Worker::step_or_park` (`worker.rs` lines 191-271).  Returns the `bool`
result (`!self.dataflows.borrow().is_empty()`), the resulting worker state,
and the trace of observable calls made during the step. -/
def Worker.stepOrPark (d : Option Nat) (s : WorkerState) :
    Bool × WorkerState × List Action :=
  let p := Worker.preSchedule s
  let s1 := p.1
  if Worker.parkCondition d s1 then
    (!s1.dataflows.isEmpty, s1, p.2 ++ [Action.park d, Action.release])
  else
    let er := s1.activations.extractRoot
    let r := scheduleDataflows er.1 s1.dataflows s1.paths
    let s2 : WorkerState := { s1 with activations := er.2, dataflows := r.1, paths := r.2.1 }
    (!s2.dataflows.isEmpty, s2, p.2 ++ r.2.2 ++ [Action.release])

/-- Model of `Worker::step` (`worker.rs` lines 160-162): `step_or_park` with a zero
timeout. -/
def Worker.step (s : WorkerState) : Bool × WorkerState × List Action :=
  Worker.stepOrPark (some 0) s

/-- The worker state after `n` consecutive `step()` calls. -/
def Worker.iterSteps : Nat → WorkerState → WorkerState
  | 0, s => s
  | n + 1, s => Worker.iterSteps n (Worker.step s).2.1

/-- Model of `Worker::step_while` (`worker.rs` lines 293-295): `while func() { self.step(); }`,
bounded by `fuel` loop iterations; `none` means the loop was still running when
the fuel ran out. -/
def Worker.stepWhileFuel (pred : WorkerState → Bool) : Nat → WorkerState → Option WorkerState
  | 0, s => if pred s then none else some s
  | n + 1, s => if pred s then Worker.stepWhileFuel pred n (Worker.step s).2.1 else some s

/-- The worker state after a sequence of `step_or_park` calls with the given
timeouts. -/
def Worker.runSteps : List (Option Nat) → WorkerState → WorkerState
  | [], s => s
  | d :: rest, s => Worker.runSteps rest (Worker.stepOrPark d s).2.1

/-- Perform a sequence of `allocate` calls (the channel allocations performed
by a dataflow-building closure passed to `dataflow_core`). -/
def Worker.allocateAll : List (Nat × List Nat) → WorkerState → Except String WorkerState
  | [], s => .ok s
  | (id, addr) :: rest, s =>
    match Worker.allocate id addr s with
    | .error e => .error e
    | .ok s' => Worker.allocateAll rest s'

/-- Model of `Worker::dataflow_core` (`worker.rs` lines 419-475): acquire a dataflow
index and an identifier, run the user closure (embedded as the list of channel
allocations it performs), then drain `temp_channel_ids` into a new `Wrapper`
registered under the dataflow index.  The operator is embedded by its
`schedule()` behavior. -/
def Worker.dataflowCore (chans : List (Nat × List Nat)) (behavior : List Bool)
    (s : WorkerState) : Except String WorkerState :=
  let dataflowIndex := s.dataflowCounter
  let ident := s.identifiers
  let s0 := { s with dataflowCounter := s.dataflowCounter + 1,
                     identifiers := s.identifiers + 1 }
  match Worker.allocateAll chans s0 with
  | .error e => .error e
  | .ok s1 =>
    let w : Wrapper :=
      { identifier := ident, operate := some behavior,
        resources := some (), channel_ids := s1.tempChannelIds }
    .ok { s1 with tempChannelIds := [],
                  dataflows := mapInsert s1.dataflows dataflowIndex w }

/-- The operations the worker thread can perform on its state; `postEvent`
models the transport enqueueing an event on the shared event queue. -/
inductive Op
  | alloc (id : Nat) (addr : List Nat)
  | pipe (id : Nat) (addr : List Nat)
  | dataflow (chans : List (Nat × List Nat)) (behavior : List Bool)
  | step (d : Option Nat)
  | postEvent (channel : Nat) (e : Event)
deriving DecidableEq, Repr

/-- Apply one operation; a Rust panic is an `Except.error` that ends the run. -/
def applyOp : Op → WorkerState → Except String WorkerState
  | .alloc id addr, s => Worker.allocate id addr s
  | .pipe id addr, s => Worker.pipeline id addr s
  | .dataflow chans behavior, s => Worker.dataflowCore chans behavior s
  | .step d, s => .ok (Worker.stepOrPark d s).2.1
  | .postEvent c e, s => .ok { s with events := s.events ++ [(c, e)] }

/-- Run a sequence of operations from a state, stopping at the first panic. -/
def runOps : List Op → WorkerState → Except String WorkerState
  | [], s => .ok s
  | op :: rest, s =>
    match applyOp op s with
    | .error e => .error e
    | .ok s' => runOps rest s'

/-!  ## Lemmas about the scheduling loop  -/

theorem Wrapper.step_channel_ids (w : Wrapper) :
    (Wrapper.step w).2.channel_ids = w.channel_ids := by
  rw [Wrapper.step]
  split <;> rfl

theorem mapFind_foldl_remove_none (chs : List Nat) (paths : List (Nat × List Nat))
    (ch : Nat) (h : mapFind paths ch = none) :
    mapFind (chs.foldl mapRemove paths) ch = none := by
  induction chs generalizing paths with
  | nil => exact h
  | cons c chs ih =>
    rw [List.foldl_cons]
    apply ih
    by_cases hc : ch = c
    · rw [hc]; exact mapFind_remove_self _ _
    · rwa [mapFind_remove_ne _ _ _ hc]

theorem mapFind_foldl_remove_mem (chs : List Nat) (paths : List (Nat × List Nat))
    (ch : Nat) (h : ch ∈ chs) :
    mapFind (chs.foldl mapRemove paths) ch = none := by
  induction chs generalizing paths with
  | nil => cases h
  | cons c chs ih =>
    rw [List.foldl_cons]
    rcases List.mem_cons.mp h with hc | hc
    · apply mapFind_foldl_remove_none
      rw [hc]
      exact mapFind_remove_self _ _
    · exact ih _ hc

theorem mapFind_foldl_remove_not_mem (chs : List Nat) (paths : List (Nat × List Nat))
    (ch : Nat) (h : ch ∉ chs) :
    mapFind (chs.foldl mapRemove paths) ch = mapFind paths ch := by
  induction chs generalizing paths with
  | nil => rfl
  | cons c chs ih =>
    rw [List.foldl_cons, ih _ (fun hm => h (List.mem_cons_of_mem _ hm))]
    exact mapFind_remove_ne _ _ _ (fun hc => h (hc ▸ List.mem_cons_self _ _))

theorem sched_trace_kinds (idxs : List Nat) (dfs : List (Nat × Wrapper))
    (paths : List (Nat × List Nat)) :
    ∀ a ∈ (scheduleDataflows idxs dfs paths).2.2,
      ∃ i, a = Action.scheduleStart i ∨ a = Action.dropOperator i ∨
        a = Action.dropResources i := by
  induction idxs generalizing dfs paths with
  | nil => intro a ha; cases ha
  | cons idx rest ih =>
    intro a ha
    rw [scheduleDataflows] at ha
    cases hfind : mapFind dfs idx with
    | none =>
      rw [hfind] at ha
      exact ih _ _ a ha
    | some w =>
      rw [hfind] at ha
      by_cases hstep : (Wrapper.step w).1 = true
      · simp only [hstep, if_true] at ha
        rcases List.mem_cons.mp ha with h | h
        · exact ⟨idx, Or.inl h⟩
        · exact ih _ _ a h
      · simp only [hstep, Bool.false_eq_true, if_false] at ha
        rcases List.mem_cons.mp ha with h | h
        · exact ⟨idx, Or.inl h⟩
        rcases List.mem_cons.mp h with h | h
        · exact ⟨idx, Or.inr (Or.inl h)⟩
        rcases List.mem_cons.mp h with h | h
        · exact ⟨idx, Or.inr (Or.inr h)⟩
        · exact ih _ _ a h

theorem sched_paths_none_preserved (idxs : List Nat) (dfs : List (Nat × Wrapper))
    (paths : List (Nat × List Nat)) (ch : Nat) (h : mapFind paths ch = none) :
    mapFind (scheduleDataflows idxs dfs paths).2.1 ch = none := by
  induction idxs generalizing dfs paths with
  | nil => exact h
  | cons idx rest ih =>
    rw [scheduleDataflows]
    cases hfind : mapFind dfs idx with
    | none => exact ih _ _ h
    | some w =>
      by_cases hstep : (Wrapper.step w).1 = true
      · simp only [hstep, if_true]
        exact ih _ _ h
      · simp only [hstep, Bool.false_eq_true, if_false]
        exact ih _ _ (mapFind_foldl_remove_none _ _ _ h)

theorem sched_dfs_none_preserved (idxs : List Nat) (dfs : List (Nat × Wrapper))
    (paths : List (Nat × List Nat)) (i : Nat) (h : mapFind dfs i = none) :
    mapFind (scheduleDataflows idxs dfs paths).1 i = none := by
  induction idxs generalizing dfs paths with
  | nil => exact h
  | cons idx rest ih =>
    rw [scheduleDataflows]
    cases hfind : mapFind dfs idx with
    | none => exact ih _ _ h
    | some w =>
      have hne : i ≠ idx := fun he => by rw [he, hfind] at h; cases h
      by_cases hstep : (Wrapper.step w).1 = true
      · simp only [hstep, if_true]
        apply ih
        rwa [mapFind_insert_ne _ _ _ _ hne]
      · simp only [hstep, Bool.false_eq_true, if_false]
        apply ih
        rwa [mapFind_remove_ne _ _ _ hne]

theorem sched_empty (idxs : List Nat) (paths : List (Nat × List Nat)) :
    scheduleDataflows idxs [] paths = ([], paths, []) := by
  induction idxs with
  | nil => rfl
  | cons idx rest ih =>
    rw [scheduleDataflows]
    have : mapFind ([] : List (Nat × Wrapper)) idx = none := rfl
    rw [this]
    exact ih

/-- The main teardown lemma: a scheduled dataflow whose `schedule()` reports
complete is unregistered, its channel ids are removed from the path map, and
the trace records the operator drop before the resource drop. -/
theorem sched_complete (idxs : List Nat) (dfs : List (Nat × Wrapper))
    (paths : List (Nat × List Nat)) (idx : Nat) (w : Wrapper)
    (hmem : idx ∈ idxs) (hfind : mapFind dfs idx = some w)
    (hdone : (Wrapper.step w).1 = false) :
    mapFind (scheduleDataflows idxs dfs paths).1 idx = none ∧
    (∀ ch ∈ w.channel_ids, mapFind (scheduleDataflows idxs dfs paths).2.1 ch = none) ∧
    List.IsInfix
      [Action.scheduleStart idx, Action.dropOperator idx, Action.dropResources idx]
      (scheduleDataflows idxs dfs paths).2.2 := by
  induction idxs generalizing dfs paths with
  | nil => cases hmem
  | cons j rest ih =>
    by_cases hj : j = idx
    · subst hj
      rw [scheduleDataflows]
      rw [hfind]
      have hstep : ¬ ((Wrapper.step w).1 = true) := by rw [hdone]; exact Bool.false_ne_true
      simp only [hstep, Bool.false_eq_true, if_false]
      refine ⟨?_, ?_, ?_⟩
      · exact sched_dfs_none_preserved _ _ _ _ (mapFind_remove_self _ _)
      · intro ch hch
        apply sched_paths_none_preserved
        apply mapFind_foldl_remove_mem
        rwa [Wrapper.step_channel_ids]
      · exact ⟨[], _, rfl⟩
    · have hmem' : idx ∈ rest := by
        rcases List.mem_cons.mp hmem with h | h
        · exact absurd h.symm hj
        · exact h
      rw [scheduleDataflows]
      cases hfindj : mapFind dfs j with
      | none => exact ih _ _ hmem' hfind
      | some wj =>
        have hne : idx ≠ j := fun he => hj he.symm
        by_cases hstep : (Wrapper.step wj).1 = true
        · simp only [hstep, if_true]
          have hfind' : mapFind (mapInsert dfs j (Wrapper.step wj).2) idx = some w := by
            rwa [mapFind_insert_ne _ _ _ _ hne]
          obtain ⟨h1, h2, h3⟩ := ih _ _ hmem' hfind'
          exact ⟨h1, h2, List.infix_cons h3⟩
        · simp only [hstep, Bool.false_eq_true, if_false]
          have hfind' : mapFind (mapRemove dfs j) idx = some w := by
            rwa [mapFind_remove_ne _ _ _ hne]
          obtain ⟨h1, h2, h3⟩ := ih _ _ hmem' hfind'
          exact ⟨h1, h2, List.infix_cons (List.infix_cons (List.infix_cons h3))⟩

/-- If no scheduled dataflow owns channel `ch`, its path entry survives the
scheduling loop unchanged. -/
theorem sched_paths_persist (idxs : List Nat) (dfs : List (Nat × Wrapper))
    (paths : List (Nat × List Nat)) (ch : Nat)
    (howner : ∀ idx w, mapFind dfs idx = some w → ch ∈ w.channel_ids → idx ∉ idxs) :
    mapFind (scheduleDataflows idxs dfs paths).2.1 ch = mapFind paths ch := by
  induction idxs generalizing dfs paths with
  | nil => rfl
  | cons j rest ih =>
    rw [scheduleDataflows]
    cases hfindj : mapFind dfs j with
    | none =>
      apply ih
      intro idx w hw hch
      exact fun hm => howner idx w hw hch (List.mem_cons_of_mem _ hm)
    | some wj =>
      by_cases hstep : (Wrapper.step wj).1 = true
      · simp only [hstep, if_true]
        apply ih
        intro idx w hw hch hm
        rcases mapFind_insert_some _ _ _ _ _ hw with ⟨he, hv⟩ | hw'
        · subst he
          rw [hv, Wrapper.step_channel_ids] at hch
          exact howner _ _ hfindj hch (List.mem_cons_self _ _)
        · exact howner _ _ hw' hch (List.mem_cons_of_mem _ hm)
      · simp only [hstep, Bool.false_eq_true, if_false]
        have hnotin : ch ∉ (Wrapper.step wj).2.channel_ids := by
          rw [Wrapper.step_channel_ids]
          intro hch
          exact howner _ _ hfindj hch (List.mem_cons_self _ _)
        rw [ih _ _ ?_, mapFind_foldl_remove_not_mem _ _ _ hnotin]
        intro idx w hw hch hm
        exact howner _ _ (mapFind_remove_some _ _ _ _ hw) hch (List.mem_cons_of_mem _ hm)

/-- Every entry of the path map after the scheduling loop was an entry before. -/
theorem sched_paths_subset (idxs : List Nat) (dfs : List (Nat × Wrapper))
    (paths : List (Nat × List Nat)) :
    ∀ p ∈ (scheduleDataflows idxs dfs paths).2.1, p ∈ paths := by
  induction idxs generalizing dfs paths with
  | nil => intro p hp; exact hp
  | cons j rest ih =>
    intro p hp
    rw [scheduleDataflows] at hp
    cases hfindj : mapFind dfs j with
    | none =>
      rw [hfindj] at hp
      exact ih _ _ p hp
    | some wj =>
      rw [hfindj] at hp
      by_cases hstep : (Wrapper.step wj).1 = true
      · simp only [hstep, if_true] at hp
        exact ih _ _ p hp
      · simp only [hstep, Bool.false_eq_true, if_false] at hp
        have hsub : ∀ chs (paths' : List (Nat × List Nat)) q,
            q ∈ List.foldl mapRemove paths' chs → q ∈ paths' := by
          intro chs
          induction chs with
          | nil => intro paths' q hq; exact hq
          | cons c chs ihc =>
            intro paths' q hq
            rw [List.foldl_cons] at hq
            exact List.mem_of_mem_filter (ihc _ _ hq)
        exact hsub _ _ p (ih _ _ p hp)

/-!  ## The joiner bootstrap (`Worker::bootstrap`, `worker.rs` lines 478-540)

The progcaster client handles (`crate::progress::broadcast`) and the bootstrap
endpoint (`crate::rescaling::bootstrap`) are not under `src/`; they are
modelled from the spec (§4.4, §4.5): the endpoint delivers the initial
progress-state snapshots and answers range requests; a client handle installs
a state, reports the sender indices of the installed state, computes missing
sequence ranges per sender (resolving senders as live updates are observed),
applies replayed ranges, and finally applies the stashed progress messages.
The orchestration below is translated from `worker.rs`. -/

/-- A missing sequence range request `(sender, [lo, hi))` for one progcaster. -/
structure MissingRange where
  senderIndex : Nat
  lo : Nat
  hi : Nat
deriving DecidableEq, Repr

/-- Modelled from the spec: one progcaster client handle on the joiner.
`workerIndices` is `get_worker_indices()` of the installed state; `rounds`
gives, for each successive `get_missing_updates_ranges(&mut worker_todo)`
call, the senders it resolves (removes from `worker_todo`) and the ranges it
returns.  A finite `rounds` list embeds the environment; exhausting it with
senders still unresolved models `bootstrap()` blocking forever. -/
structure ProgcasterClient where
  id : Nat
  workerIndices : List Nat
  rounds : List (List Nat × List MissingRange)
deriving DecidableEq, Repr

/-- Modelled from the spec: the bootstrap endpoint of the joiner, delivering
`recv_progcaster_states()` as a list of `(scope_id, state_blob)` pairs. -/
structure BootstrapEndpoint where
  progcasterStates : List (Nat × Nat)
deriving DecidableEq, Repr

/-- One observable action of `Worker::bootstrap`. -/
inductive BAction
  /-- The `set_progcaster_state(state)` call on the handle for `scopeId`. -/
  | installState (scopeId : Nat)
  /-- The allocator `receive()` call inside the range loop. -/
  | receiveCall
  /-- The `send_range_request(r)` call (with matching `recv_range_response`). -/
  | requestRange (scopeId : Nat) (r : MissingRange)
  /-- The `apply_updates_range(r, response)` call. -/
  | applyRange (scopeId : Nat) (r : MissingRange)
  /-- The `apply_stashed_progress_msgs()` call. -/
  | applyStashed (scopeId : Nat)
deriving DecidableEq, Repr

/-- The `while !worker_todo.is_empty()` loop of `Worker::bootstrap`: each
iteration calls `receive()`, then requests and applies every missing range
reported this round; `none` when the rounds are exhausted with senders still
unresolved (the loop would block forever). -/
def bootstrapRangesLoop (scopeId : Nat) :
    List (List Nat × List MissingRange) → List Nat → Option (List BAction)
  | _, [] => some []
  | [], _ :: _ => none
  | (resolved, ranges) :: rest, wkr :: wkrs =>
    let acts := BAction.receiveCall ::
      ranges.flatMap (fun r => [BAction.requestRange scopeId r, BAction.applyRange scopeId r])
    let todo' := (wkr :: wkrs).filter (fun x => !(resolved.contains x))
    (bootstrapRangesLoop scopeId rest todo').map (fun t => acts ++ t)

/-- Bootstrap work for one progcaster client handle: the range loop, then
`apply_stashed_progress_msgs()`. -/
def processClient (c : ProgcasterClient) : Option (List BAction) :=
  (bootstrapRangesLoop c.id c.rounds c.workerIndices).map
    (fun t => t ++ [BAction.applyStashed c.id])

/-- Bootstrap work for all progcaster client handles, in order. -/
def processClients : List ProgcasterClient → Option (List BAction)
  | [] => some []
  | c :: rest =>
    match processClient c, processClients rest with
    | some t, some ts => some (t ++ ts)
    | _, _ => none

/-- Model of `Worker::bootstrap` (`worker.rs` lines 478-540): with no bootstrap
endpoint return `false`; otherwise install every received progress-state
snapshot, then run the range-replay loop and the stashed-message application
per progcaster, and return `true`.  The result is the returned `bool` and the
trace of observable actions; `none` when the range loop blocks forever. -/
def Worker.bootstrap (endpoint : Option BootstrapEndpoint)
    (clients : List ProgcasterClient) : Option (Bool × List BAction) :=
  match endpoint with
  | none => some (false, [])
  | some ep =>
    (processClients clients).map
      (fun t => (true, ep.progcasterStates.map (fun p => BAction.installState p.1) ++ t))

/-!  ## Startup configuration (`src/communication/src/initialize.rs`)  -/

/-- The option values extracted from a successful `getopts` parse in
`Configuration::from_args` (`initialize.rs` lines 66-112): the raw strings of
`-w`, `-p`, `-n`, `-h`, `-j` and the `-r` flag. -/
structure Matches where
  w : Option String
  p : Option String
  n : Option String
  h : Option String
  j : Option String
  report : Bool
deriving DecidableEq, Repr

/-- Digit-run value of a character list. -/
def digitsVal (cs : List Char) : Nat :=
  cs.foldl (fun acc c => acc * 10 + (c.toNat - 48)) 0

/-- Model of Rust `str::parse::<usize>()` on a character list: accepts a
non-empty all-digit run.  (Rust also accepts a leading `+`, irrelevant to the
inputs used here.) -/
def parseUsizeChars (cs : List Char) : Option Nat :=
  if cs ≠ [] ∧ cs.all Char.isDigit then some (digitsVal cs) else none

/-- Model of Rust `str::parse::<usize>()`. -/
def parseUsize (s : String) : Option Nat := parseUsizeChars s.data

/-- Split a character list on a separator character (model of `str::split`;
`String::splitOn` for a one-character separator). -/
def splitOnChar (sep : Char) : List Char → List (List Char)
  | [] => [[]]
  | c :: cs =>
    if c = sep then [] :: splitOnChar sep cs
    else
      match splitOnChar sep cs with
      | [] => [[c]]
      | g :: gs => (c :: g) :: gs

/-- Model of `enum Configuration` (`initialize.rs` lines 24-44), without the log
closure. -/
inductive Configuration
  | Thread
  | Process (threads : Nat)
  | Cluster (threads : Nat) (processIdx : Nat) (addresses : List String)
      (report : Bool) (join : Option Nat)
deriving DecidableEq, Repr

/-- Outcome of `Configuration::from_args`: a configuration, a textual `Err`,
or a Rust panic (from `unwrap`/`assert!`, which does not return an `Err`). -/
inductive FromArgsResult
  | ok (c : Configuration)
  | err (msg : String)
  | panicked (msg : String)
deriving DecidableEq, Repr

/-- Model of `Configuration::from_args` (`initialize.rs` lines 66-112).  `getoptsResult`
is the result of `opts.parse(args)` (an `Err` for unrecognized options etc.);
`fs` maps a hostfile name to its lines, `none` when the file cannot be opened.
Malformed `-w`/`-p`/`-n` values fall back to the defaults via `unwrap_or`;
a malformed `-j` value panics via `unwrap`; a missing hostfile panics via
`File::open(..).unwrap()`. -/
def fromArgs (getoptsResult : Except String Matches)
    (fs : String → Option (List String)) : FromArgsResult :=
  match getoptsResult with
  | .error e => .err e
  | .ok m =>
    let threads := (m.w.map (fun x => (parseUsize x).getD 1)).getD 1
    let processIdx := (m.p.map (fun x => (parseUsize x).getD 0)).getD 0
    let processes := (m.n.map (fun x => (parseUsize x).getD 1)).getD 1
    match m.j.map parseUsize with
    | some none => .panicked "called Option::unwrap() on a None value"
    | jParsed =>
      let join : Option Nat :=
        match jParsed with
        | some (some v) => some v
        | _ => none
      if processIdx < processes then
        if processes > 1 then
          match m.h with
          | some hosts =>
            match fs hosts with
            | none => .panicked "No such file or directory"
            | some lines =>
              let addresses := lines.take processes
              if addresses.length < processes then
                .panicked "could only read fewer addresses than -n"
              else
                .ok (.Cluster threads processIdx addresses m.report join)
          | none =>
            let addresses :=
              (List.range processes).map (fun i => "localhost:" ++ toString (2101 + i))
            .ok (.Cluster threads processIdx addresses m.report join)
        else if threads > 1 then .ok (.Process threads)
        else .ok .Thread
      else .panicked "assertion failed: process < processes"

/-- Model of Rust `Ipv4Addr` octet text: a non-empty all-digit run of at most
three characters whose value is below 256 (Rust also rejects leading zeros,
irrelevant here since `localhost` fails the digit test). -/
def parseOctet (cs : List Char) : Option Nat :=
  match parseUsizeChars cs with
  | none => none
  | some v => if v < 256 ∧ cs.length ≤ 3 then some v else none

/-- Model of Rust `SocketAddrV4::from_str`: `a.b.c.d:port` with a numeric
dotted-quad host — a hostname such as `localhost` is rejected. -/
def parseSocketAddrV4 (s : String) : Option ((Nat × Nat × Nat × Nat) × Nat) :=
  match splitOnChar ':' s.data with
  | [host, port] =>
    (match splitOnChar '.' host with
     | [a, b, c, d] =>
       (match parseOctet a, parseOctet b, parseOctet c, parseOctet d with
        | some va, some vb, some vc, some vd =>
          (match parseUsizeChars port with
           | some vp => if vp < 65536 then some ((va, vb, vc, vd), vp) else none
           | none => none)
        | _, _, _, _ => none)
     | _ => none)
  | _ => none

/-- The bootstrap-address setup of `Configuration::try_build` for a joining
cluster configuration (`initialize.rs` lines 125-149): read `BOOTSTRAP_ADDR`
(defaulting to `"localhost:9000"`), parse it as a `SocketAddrV4`, and panic
(`expect`, embedded as `Except.error`) when it does not parse.  `env` is the
value of the `BOOTSTRAP_ADDR` environment variable. -/
def tryBuildBootstrapInfo (join : Option Nat) (env : Option String) :
    Except String (Option (Nat × ((Nat × Nat × Nat × Nat) × Nat))) :=
  match join with
  | none => .ok none
  | some serverIndex =>
    let bootstrapAddress := env.getD "localhost:9000"
    match parseSocketAddrV4 bootstrapAddress with
    | none => .error "cannot parse BOOTSTRAP_ADDRESS"
    | some addr => .ok (some (serverIndex, addr))

/-!  ## Lemmas about `step_or_park`  -/

theorem preSchedule_paths (s : WorkerState) :
    (Worker.preSchedule s).1.paths = s.paths := rfl

theorem preSchedule_dataflows (s : WorkerState) :
    (Worker.preSchedule s).1.dataflows = s.dataflows := rfl

theorem bnot_isEmpty_iff (l : List α) : ((!l.isEmpty) = true) ↔ l ≠ [] := by
  cases l <;> simp

theorem stepOrPark_result (d : Option Nat) (s : WorkerState) :
    (Worker.stepOrPark d s).1 = !(Worker.stepOrPark d s).2.1.dataflows.isEmpty := by
  rw [Worker.stepOrPark]
  split <;> rfl

theorem stepOrPark_dataflows_nil (d : Option Nat) (s : WorkerState)
    (h : s.dataflows = []) : (Worker.stepOrPark d s).2.1.dataflows = [] := by
  have hc : Worker.parkCondition d (Worker.preSchedule s).1 = false := by
    simp [Worker.parkCondition, Worker.preSchedule, h, List.isEmpty_nil]
  rw [Worker.stepOrPark]
  simp only [hc, Bool.false_eq_true, if_false]
  show (scheduleDataflows _ (Worker.preSchedule s).1.dataflows _).1 = []
  rw [preSchedule_dataflows, h, sched_empty]

theorem stepOrPark_paths_subset (d : Option Nat) (s : WorkerState) :
    ∀ p ∈ (Worker.stepOrPark d s).2.1.paths, p ∈ s.paths := by
  rw [Worker.stepOrPark]
  split
  · intro p hp; exact hp
  · intro p hp
    exact sched_paths_subset _ _ _ p hp

/-!  ## Claims  -/

/-- C10: `Worker::step_or_park` (and hence `Worker::step`) returns `true` iff
at least one dataflow remains registered when the step finishes; once every
dataflow has been removed it returns `false` on that and every later call
(no step creates a dataflow). -/
theorem step_returns_dataflows_nonempty (d : Option Nat) (s : WorkerState) :
    ((Worker.stepOrPark d s).1 = true ↔ (Worker.stepOrPark d s).2.1.dataflows ≠ []) ∧
    (s.dataflows = [] →
      (Worker.stepOrPark d s).1 = false ∧ (Worker.stepOrPark d s).2.1.dataflows = []) ∧
    (∀ ds : List (Option Nat), s.dataflows = [] →
      (Worker.runSteps ds s).dataflows = []) := by
  refine ⟨?_, ?_, ?_⟩
  · rw [stepOrPark_result]
    exact bnot_isEmpty_iff _
  · intro h
    have hd := stepOrPark_dataflows_nil d s h
    refine ⟨?_, hd⟩
    rw [stepOrPark_result, hd]
    rfl
  · intro ds
    induction ds generalizing s with
    | nil => intro h; exact h
    | cons d0 rest ih =>
      intro h
      rw [Worker.runSteps]
      exact ih _ (stepOrPark_dataflows_nil d0 s h)

/-- C10 witness: on a fresh worker with no dataflows, a step returns `false`
and further steps leave the dataflow registry empty. -/
theorem step_returns_dataflows_nonempty_witness :
    (Worker.stepOrPark (some 0) Worker.new).1 = false ∧
    (Worker.runSteps [some 0, none] Worker.new).dataflows = [] :=
  ⟨((step_returns_dataflows_nonempty (some 0) Worker.new).2.1 rfl).1,
   (step_returns_dataflows_nonempty (some 0) Worker.new).2.2 [some 0, none] rfl⟩

/-- C9: `step_while(pred)` terminates iff `pred` evaluates to `false` after
finitely many steps (some fuel bound suffices iff some iterate falsifies
`pred`), and each loop iteration evaluates `pred` first and performs exactly
one `step()` call when it is `true`. -/
theorem step_while_terminates_iff (pred : WorkerState → Bool) (s : WorkerState) :
    ((∃ fuel s', Worker.stepWhileFuel pred fuel s = some s') ↔
      (∃ n, pred (Worker.iterSteps n s) = false)) ∧
    (∀ (n : Nat) (t : WorkerState),
      Worker.stepWhileFuel pred (n + 1) t =
        if pred t then Worker.stepWhileFuel pred n (Worker.step t).2.1 else some t) := by
  have fwd : ∀ fuel (t : WorkerState) s',
      Worker.stepWhileFuel pred fuel t = some s' →
      ∃ n, pred (Worker.iterSteps n t) = false := by
    intro fuel
    induction fuel with
    | zero =>
      intro t s' h
      rw [Worker.stepWhileFuel] at h
      by_cases hp : pred t = true
      · rw [if_pos hp] at h; cases h
      · exact ⟨0, Bool.not_eq_true _ ▸ hp⟩
    | succ n ih =>
      intro t s' h
      rw [Worker.stepWhileFuel] at h
      by_cases hp : pred t = true
      · rw [if_pos hp] at h
        obtain ⟨m, hm⟩ := ih _ _ h
        exact ⟨m + 1, hm⟩
      · exact ⟨0, Bool.not_eq_true _ ▸ hp⟩
  have bwd : ∀ n (t : WorkerState), pred (Worker.iterSteps n t) = false →
      ∃ s', Worker.stepWhileFuel pred n t = some s' := by
    intro n
    induction n with
    | zero =>
      intro t h
      have h' : pred t = false := h
      refine ⟨t, ?_⟩
      rw [Worker.stepWhileFuel, if_neg (by rw [h']; exact Bool.false_ne_true)]
    | succ n ih =>
      intro t h
      by_cases hp : pred t = true
      · obtain ⟨s', hs'⟩ := ih _ h
        refine ⟨s', ?_⟩
        rw [Worker.stepWhileFuel, if_pos hp]
        exact hs'
      · refine ⟨t, ?_⟩
        rw [Worker.stepWhileFuel, if_neg hp]
  exact ⟨⟨fun ⟨fuel, s', h⟩ => fwd fuel s s' h,
          fun ⟨n, h⟩ => let ⟨s', h'⟩ := bwd n s h; ⟨n, s', h'⟩⟩,
         fun n t => rfl⟩

/-- C7: the bootstrap-address default is unusable.  With `join = Some(0)` and
`BOOTSTRAP_ADDR` unset, the default string `"localhost:9000"` is rejected by
`SocketAddrV4::from_str` (which requires a numeric dotted-quad host), so
`Configuration::try_build` panics at the `expect` instead of proceeding; a
numeric address would have been accepted. -/
theorem bootstrap_default_addr_panics :
    tryBuildBootstrapInfo (some 0) none = .error "cannot parse BOOTSTRAP_ADDRESS" ∧
    parseSocketAddrV4 "localhost:9000" = none ∧
    parseSocketAddrV4 "127.0.0.1:9000" = some ((127, 0, 0, 1), 9000) :=
  ⟨rfl, rfl, rfl⟩

/-- C5 counterexample: a malformed `-w` value (`"abc"`) does not make
`Configuration::from_args` return an `Err`; the value is silently replaced by
the default `1` and the call succeeds with the `Thread` configuration. -/
theorem from_args_silent_default_counterexample :
    fromArgs (.ok { w := some "abc", p := none, n := none, h := none,
                    j := none, report := false }) (fun _ => none) =
      .ok Configuration.Thread := rfl

/-- C5 amended: errors reported by the `getopts` parser are returned as a
textual `Err`, but malformed `-w`/`-p`/`-n` values are silently replaced by
the defaults 1/0/1, a malformed `-j` value panics via `unwrap`, and a missing
hostfile (with more than one process) panics via `File::open(..).unwrap()`
rather than returning an `Err`. -/
theorem from_args_error_behavior :
    (∀ (e : String) (fs : String → Option (List String)),
      fromArgs (.error e) fs = .err e) ∧
    (∀ (sw sp sn : String) (fs : String → Option (List String)),
      parseUsize sw = none → parseUsize sp = none → parseUsize sn = none →
      fromArgs (.ok { w := some sw, p := some sp, n := some sn, h := none,
                      j := none, report := false }) fs = .ok Configuration.Thread) ∧
    (∀ (sj : String) (m : Matches) (fs : String → Option (List String)),
      m.j = some sj → parseUsize sj = none →
      fromArgs (.ok m) fs = .panicked "called Option::unwrap() on a None value") ∧
    (∀ (hosts sn : String) (np : Nat) (report : Bool)
        (fs : String → Option (List String)),
      parseUsize sn = some np → 2 ≤ np → fs hosts = none →
      fromArgs (.ok { w := none, p := none, n := some sn, h := some hosts,
                      j := none, report := report }) fs =
        .panicked "No such file or directory") := by
  refine ⟨fun e fs => rfl, ?_, ?_, ?_⟩
  · intro sw sp sn fs hw hp hn
    simp [fromArgs, hw, hp, hn]
  · intro sj m fs hj hparse
    simp [fromArgs, hj, hparse]
  · intro hosts sn np report fs hn hnp hfs
    have h0 : 0 < np := lt_of_lt_of_le (by decide) hnp
    have h1 : 1 < np := lt_of_lt_of_le (by decide) hnp
    simp [fromArgs, hn, hfs, h0, h1]

/-- C5 amended witness: concrete malformed `-w`/`-p`/`-n` values silently fall
back to the defaults, producing the `Thread` configuration. -/
theorem from_args_error_behavior_witness :
    fromArgs (.ok { w := some "abc", p := some "zz", n := some "q!", h := none,
                    j := none, report := false }) (fun _ => none) =
      .ok Configuration.Thread :=
  from_args_error_behavior.2.1 "abc" "zz" "q!" (fun _ => none) rfl rfl rfl

/-!  ## Branch analysis of `step_or_park`  -/

theorem parkCondition_eq_true_iff (d : Option Nat) (s1 : WorkerState) :
    Worker.parkCondition d s1 = true ↔
      (s1.activations.isEmpty = true ∧ s1.dataflows ≠ [] ∧ d ≠ some 0) := by
  simp [Worker.parkCondition, Bool.and_eq_true, bnot_isEmpty_iff, and_assoc]

theorem stepOrPark_trace_park (d : Option Nat) (s : WorkerState)
    (hc : Worker.parkCondition d (Worker.preSchedule s).1 = true) :
    (Worker.stepOrPark d s).2.2 =
      (Worker.preSchedule s).2 ++ [Action.park d, Action.release] := by
  rw [Worker.stepOrPark]
  simp only [hc, if_true]

theorem stepOrPark_state_park (d : Option Nat) (s : WorkerState)
    (hc : Worker.parkCondition d (Worker.preSchedule s).1 = true) :
    (Worker.stepOrPark d s).2.1 = (Worker.preSchedule s).1 := by
  rw [Worker.stepOrPark]
  simp only [hc, if_true]

theorem stepOrPark_trace_sched (d : Option Nat) (s : WorkerState)
    (hc : Worker.parkCondition d (Worker.preSchedule s).1 = false) :
    (Worker.stepOrPark d s).2.2 =
      (Worker.preSchedule s).2 ++
        (scheduleDataflows ((Worker.preSchedule s).1.activations.extractRoot).1
          (Worker.preSchedule s).1.dataflows (Worker.preSchedule s).1.paths).2.2 ++
        [Action.release] := by
  rw [Worker.stepOrPark]
  simp only [hc, Bool.false_eq_true, if_false]

theorem stepOrPark_paths_sched (d : Option Nat) (s : WorkerState)
    (hc : Worker.parkCondition d (Worker.preSchedule s).1 = false) :
    (Worker.stepOrPark d s).2.1.paths =
      (scheduleDataflows ((Worker.preSchedule s).1.activations.extractRoot).1
        (Worker.preSchedule s).1.dataflows (Worker.preSchedule s).1.paths).2.1 := by
  rw [Worker.stepOrPark]
  simp only [hc, Bool.false_eq_true, if_false]

theorem stepOrPark_dataflows_sched (d : Option Nat) (s : WorkerState)
    (hc : Worker.parkCondition d (Worker.preSchedule s).1 = false) :
    (Worker.stepOrPark d s).2.1.dataflows =
      (scheduleDataflows ((Worker.preSchedule s).1.activations.extractRoot).1
        (Worker.preSchedule s).1.dataflows (Worker.preSchedule s).1.paths).1 := by
  rw [Worker.stepOrPark]
  simp only [hc, Bool.false_eq_true, if_false]

theorem preSchedule_trace (s : WorkerState) :
    (Worker.preSchedule s).2 =
      Action.rescale :: Action.receive ::
        ((drainActivations s.events s.paths).map Action.activateAt ++ [Action.advance]) :=
  rfl

theorem park_not_in_pre (d' : Option Nat) (s : WorkerState) :
    Action.park d' ∉ (Worker.preSchedule s).2 := by
  rw [preSchedule_trace]
  intro h
  rcases List.mem_cons.mp h with h | h
  · cases h
  rcases List.mem_cons.mp h with h | h
  · cases h
  rcases List.mem_append.mp h with h | h
  · obtain ⟨x, _, hx⟩ := List.mem_map.mp h
    cases hx
  · rcases List.mem_cons.mp h with h | h
    · cases h
    · cases h

theorem release_not_in_pre (s : WorkerState) :
    Action.release ∉ (Worker.preSchedule s).2 := by
  rw [preSchedule_trace]
  intro h
  rcases List.mem_cons.mp h with h | h
  · cases h
  rcases List.mem_cons.mp h with h | h
  · cases h
  rcases List.mem_append.mp h with h | h
  · obtain ⟨x, _, hx⟩ := List.mem_map.mp h
    cases hx
  · rcases List.mem_cons.mp h with h | h
    · cases h
    · cases h

/-- A worker state holding one incomplete dataflow and no pending activation:
`step_or_park(None)` parks on it. -/
def parkableState : WorkerState :=
  { paths := [], tempChannelIds := [],
    dataflows := [(0, ⟨0, some [true], some (), []⟩)],
    dataflowCounter := 1, identifiers := 1,
    activations := { current := [], delayed := [] }, events := [] }

/-- C2: `step_or_park(d)` parks (calls `await_events(d)`) iff the activation
set (after the event drain and `advance`) is empty, some dataflow is
registered, and `d` is not a zero timeout; `step()` is `step_or_park(Some(0))`
and never parks; `step_or_park(None)` can park with an unbounded timeout. -/
theorem step_or_park_parks_iff :
    (∀ (d : Option Nat) (s : WorkerState),
      Action.park d ∈ (Worker.stepOrPark d s).2.2 ↔
        ((Worker.preSchedule s).1.activations.isEmpty = true ∧
          s.dataflows ≠ [] ∧ d ≠ some 0)) ∧
    (∀ (s : WorkerState) (d' : Option Nat), Action.park d' ∉ (Worker.step s).2.2) ∧
    (∀ s : WorkerState, Worker.step s = Worker.stepOrPark (some 0) s) ∧
    (∃ s : WorkerState, Action.park none ∈ (Worker.stepOrPark none s).2.2) := by
  have key : ∀ (d : Option Nat) (s : WorkerState),
      Action.park d ∈ (Worker.stepOrPark d s).2.2 ↔
        ((Worker.preSchedule s).1.activations.isEmpty = true ∧
          s.dataflows ≠ [] ∧ d ≠ some 0) := by
    intro d s
    have hdf : (Worker.preSchedule s).1.dataflows = s.dataflows := preSchedule_dataflows s
    by_cases hc : Worker.parkCondition d (Worker.preSchedule s).1 = true
    · have hrhs := (parkCondition_eq_true_iff d _).mp hc
      rw [hdf] at hrhs
      rw [stepOrPark_trace_park d s hc]
      constructor
      · intro _; exact hrhs
      · intro _
        exact List.mem_append.mpr (Or.inr (List.mem_cons_self _ _))
    · have hcf : Worker.parkCondition d (Worker.preSchedule s).1 = false :=
        Bool.not_eq_true _ ▸ hc
      have hrhs : ¬ ((Worker.preSchedule s).1.activations.isEmpty = true ∧
          s.dataflows ≠ [] ∧ d ≠ some 0) := by
        rw [← hdf]
        exact fun hr => hc ((parkCondition_eq_true_iff d _).mpr hr)
      rw [stepOrPark_trace_sched d s hcf]
      constructor
      · intro hmem
        exfalso
        rcases List.mem_append.mp hmem with hmem | hmem
        · rcases List.mem_append.mp hmem with hmem | hmem
          · exact park_not_in_pre d s hmem
          · obtain ⟨i, hi⟩ := sched_trace_kinds _ _ _ _ hmem
            rcases hi with hi | hi | hi <;> cases hi
        · rcases List.mem_cons.mp hmem with hmem | hmem
          · cases hmem
          · cases hmem
      · intro hr
        exact absurd hr hrhs
  refine ⟨key, ?_, fun s => rfl, ?_⟩
  · intro s d'
    rw [Worker.step]
    by_cases hd : d' = some 0
    · subst hd
      intro hmem
      have := (key (some 0) s).mp hmem
      exact this.2.2 rfl
    · -- a park action always records the argument duration, which is `some 0` here
      by_cases hc : Worker.parkCondition (some 0) (Worker.preSchedule s).1 = true
      · rw [parkCondition_eq_true_iff] at hc
        exact absurd rfl hc.2.2
      · have hcf : Worker.parkCondition (some 0) (Worker.preSchedule s).1 = false :=
          Bool.not_eq_true _ ▸ hc
        rw [stepOrPark_trace_sched _ s hcf]
        intro hmem
        rcases List.mem_append.mp hmem with hmem | hmem
        · rcases List.mem_append.mp hmem with hmem | hmem
          · exact park_not_in_pre d' s hmem
          · obtain ⟨i, hi⟩ := sched_trace_kinds _ _ _ _ hmem
            rcases hi with hi | hi | hi <;> cases hi
        · rcases List.mem_cons.mp hmem with hmem | hmem
          · cases hmem
          · cases hmem
  · refine ⟨parkableState, ?_⟩
    exact (key none _).mpr ⟨rfl, by simp [parkableState], by simp⟩

/-- C1: every `step_or_park` call performs, in order: `rescale`, `receive`,
a complete drain of the event queue activating the path of each registered
channel, an `advance` of the activation set, then either a park or a sequence
of `schedule()`/drop calls, and finally exactly one `release` as the last
call before returning. -/
theorem step_or_park_call_sequence (d : Option Nat) (s : WorkerState) :
    ∃ middle,
      (Worker.stepOrPark d s).2.2 =
        [Action.rescale, Action.receive] ++
          (drainActivations s.events s.paths).map Action.activateAt ++
          [Action.advance] ++ middle ++ [Action.release] ∧
      (∀ a ∈ middle, a = Action.park d ∨ ∃ i, a = Action.scheduleStart i ∨
        a = Action.dropOperator i ∨ a = Action.dropResources i) ∧
      (Worker.stepOrPark d s).2.2.count Action.release = 1 ∧
      (Worker.stepOrPark d s).2.1.events = [] := by
  have hev : (Worker.stepOrPark d s).2.1.events = [] := by
    rw [Worker.stepOrPark]
    split
    · rfl
    · rfl
  by_cases hc : Worker.parkCondition d (Worker.preSchedule s).1 = true
  · refine ⟨[Action.park d], ?_, ?_, ?_, hev⟩
    · rw [stepOrPark_trace_park d s hc, preSchedule_trace]
      simp
    · intro a ha
      rcases List.mem_cons.mp ha with ha | ha
      · exact Or.inl ha
      · cases ha
    · rw [stepOrPark_trace_park d s hc]
      rw [List.count_append]
      have h1 : List.count Action.release (Worker.preSchedule s).2 = 0 :=
        List.count_eq_zero.mpr (release_not_in_pre s)
      rw [h1]
      rfl
  · have hcf : Worker.parkCondition d (Worker.preSchedule s).1 = false :=
      Bool.not_eq_true _ ▸ hc
    refine ⟨(scheduleDataflows ((Worker.preSchedule s).1.activations.extractRoot).1
        (Worker.preSchedule s).1.dataflows (Worker.preSchedule s).1.paths).2.2,
      ?_, ?_, ?_, hev⟩
    · rw [stepOrPark_trace_sched d s hcf, preSchedule_trace]
      simp
    · intro a ha
      obtain ⟨i, hi⟩ := sched_trace_kinds _ _ _ a ha
      exact Or.inr ⟨i, hi⟩
    · rw [stepOrPark_trace_sched d s hcf]
      rw [List.count_append, List.count_append]
      have h1 : List.count Action.release (Worker.preSchedule s).2 = 0 :=
        List.count_eq_zero.mpr (release_not_in_pre s)
      have h2 : List.count Action.release
          (scheduleDataflows ((Worker.preSchedule s).1.activations.extractRoot).1
            (Worker.preSchedule s).1.dataflows (Worker.preSchedule s).1.paths).2.2 = 0 := by
        apply List.count_eq_zero.mpr
        intro hmem
        obtain ⟨i, hi⟩ := sched_trace_kinds _ _ _ _ hmem
        rcases hi with hi | hi | hi <;> cases hi
      rw [h1, h2]
      rfl


/-!  ## Lemmas about allocation and dataflow construction  -/

theorem mem_mapInsert (m : List (Nat × α)) (k : Nat) (v : α) (p : Nat × α)
    (h : p ∈ mapInsert m k v) : p = (k, v) ∨ p ∈ m := by
  rcases List.mem_cons.mp h with h | h
  · exact Or.inl h
  · exact Or.inr (List.mem_of_mem_filter h)

theorem allocate_ok (id : Nat) (addr : List Nat) (s s' : WorkerState)
    (h : Worker.allocate id addr s = .ok s') :
    addr ≠ [] ∧ s'.paths = mapInsert s.paths id addr ∧
      s'.tempChannelIds = s.tempChannelIds ++ [id] ∧ s'.dataflows = s.dataflows := by
  by_cases ha : addr = []
  · rw [Worker.allocate, if_pos ha] at h
    cases h
  · rw [Worker.allocate, if_neg ha] at h
    injection h with h
    subst h
    exact ⟨ha, rfl, rfl, rfl⟩

theorem pipeline_ok (id : Nat) (addr : List Nat) (s s' : WorkerState)
    (h : Worker.pipeline id addr s = .ok s') :
    addr ≠ [] ∧ s'.paths = mapInsert s.paths id addr ∧
      s'.tempChannelIds = s.tempChannelIds ++ [id] ∧ s'.dataflows = s.dataflows := by
  by_cases ha : addr = []
  · rw [Worker.pipeline, if_pos ha] at h
    cases h
  · rw [Worker.pipeline, if_neg ha] at h
    injection h with h
    subst h
    exact ⟨ha, rfl, rfl, rfl⟩

theorem allocateAll_paths_pre :
    ∀ (chans : List (Nat × List Nat)) (s s' : WorkerState) (id : Nat) (addr : List Nat),
      (∀ c ∈ chans, c.1 ≠ id) → mapFind s.paths id = some addr →
      Worker.allocateAll chans s = .ok s' → mapFind s'.paths id = some addr := by
  intro chans
  induction chans with
  | nil =>
    intro s s' id addr _ hfind h
    rw [Worker.allocateAll] at h
    injection h with h
    subst h
    exact hfind
  | cons c rest ih =>
    intro s s' id addr hne hfind h
    obtain ⟨cid, caddr⟩ := c
    rw [Worker.allocateAll] at h
    cases halloc : Worker.allocate cid caddr s with
    | error e => rw [halloc] at h; cases h
    | ok smid =>
      rw [halloc] at h
      obtain ⟨-, hpaths, -, -⟩ := allocate_ok cid caddr s smid halloc
      have hcid : cid ≠ id := hne (cid, caddr) (List.mem_cons_self _ _)
      have hfind' : mapFind smid.paths id = some addr := by
        rw [hpaths, mapFind_insert_ne _ _ _ _ (fun he => hcid he.symm)]
        exact hfind
      exact ih smid s' id addr
        (fun c hc => hne c (List.mem_cons_of_mem _ hc)) hfind' h

theorem allocateAll_nonempty :
    ∀ (chans : List (Nat × List Nat)) (s s' : WorkerState),
      (∀ p ∈ s.paths, p.2 ≠ ([] : List Nat)) →
      Worker.allocateAll chans s = .ok s' → ∀ p ∈ s'.paths, p.2 ≠ [] := by
  intro chans
  induction chans with
  | nil =>
    intro s s' hs h
    rw [Worker.allocateAll] at h
    injection h with h
    subst h
    exact hs
  | cons c rest ih =>
    intro s s' hs h
    obtain ⟨cid, caddr⟩ := c
    rw [Worker.allocateAll] at h
    cases halloc : Worker.allocate cid caddr s with
    | error e => rw [halloc] at h; cases h
    | ok smid =>
      rw [halloc] at h
      obtain ⟨hne, hpaths, -, -⟩ := allocate_ok cid caddr s smid halloc
      refine ih smid s' ?_ h
      intro p hp
      rw [hpaths] at hp
      rcases mem_mapInsert _ _ _ _ hp with hp | hp
      · rw [hp]
        exact hne
      · exact hs p hp

theorem dataflowCore_ok (chans : List (Nat × List Nat)) (behavior : List Bool)
    (s s' : WorkerState) (h : Worker.dataflowCore chans behavior s = .ok s') :
    ∃ s1, Worker.allocateAll chans
        { s with dataflowCounter := s.dataflowCounter + 1,
                 identifiers := s.identifiers + 1 } = .ok s1 ∧
      s'.paths = s1.paths := by
  rw [Worker.dataflowCore] at h
  cases hall : Worker.allocateAll chans
      { s with dataflowCounter := s.dataflowCounter + 1,
               identifiers := s.identifiers + 1 } with
  | error e => rw [hall] at h; cases h
  | ok s1 =>
    rw [hall] at h
    injection h with h
    subst h
    exact ⟨s1, rfl, rfl⟩

/-- C4: when a scheduled dataflow's operator reports complete during a step,
the worker drops the operator before the resources (visible in the call
trace), unregisters the dataflow, removes every channel id it owns from the
path map, and re-allocating any of those channel ids afterwards succeeds with
a single fresh path entry. -/
theorem dataflow_teardown_unregisters_channels (d : Option Nat) (s : WorkerState)
    (idx : Nat) (w : Wrapper)
    (hpark : Worker.parkCondition d (Worker.preSchedule s).1 = false)
    (hsched : idx ∈ ((Worker.preSchedule s).1.activations.extractRoot).1)
    (hfind : mapFind s.dataflows idx = some w)
    (hdone : (Wrapper.step w).1 = false) :
    mapFind (Worker.stepOrPark d s).2.1.dataflows idx = none ∧
    (∀ ch ∈ w.channel_ids, mapFind (Worker.stepOrPark d s).2.1.paths ch = none) ∧
    List.IsInfix
      [Action.scheduleStart idx, Action.dropOperator idx, Action.dropResources idx]
      (Worker.stepOrPark d s).2.2 ∧
    (∀ ch ∈ w.channel_ids, ∀ addr : List Nat, addr ≠ [] →
      ∃ s2, Worker.allocate ch addr (Worker.stepOrPark d s).2.1 = .ok s2 ∧
        mapFind s2.paths ch = some addr ∧ countKey s2.paths ch = 1) := by
  have hfind' : mapFind (Worker.preSchedule s).1.dataflows idx = some w := by
    rw [preSchedule_dataflows]
    exact hfind
  obtain ⟨h1, h2, h3⟩ := sched_complete
    ((Worker.preSchedule s).1.activations.extractRoot).1
    (Worker.preSchedule s).1.dataflows (Worker.preSchedule s).1.paths
    idx w hsched hfind' hdone
  refine ⟨?_, ?_, ?_, ?_⟩
  · rw [stepOrPark_dataflows_sched d s hpark]
    exact h1
  · intro ch hch
    rw [stepOrPark_paths_sched d s hpark]
    exact h2 ch hch
  · rw [stepOrPark_trace_sched d s hpark]
    obtain ⟨u, v, huv⟩ := h3
    refine ⟨(Worker.preSchedule s).2 ++ u, v ++ [Action.release], ?_⟩
    rw [← huv]
    simp [List.append_assoc]
  · intro ch hch addr ha
    rw [Worker.allocate, if_neg ha]
    exact ⟨_, rfl, mapFind_insert_self _ _ _, countKey_insert_self _ _ _⟩

/-- A worker holding one dataflow (index 0, owning channel 7 at path `[0, 1]`)
whose operator will report complete on its next `schedule()` call, with a
pending event on channel 7. -/
def teardownDemoState : WorkerState :=
  { paths := [(7, [0, 1])], tempChannelIds := [],
    dataflows := [(0, ⟨0, some [], some (), [7]⟩)],
    dataflowCounter := 1, identifiers := 1,
    activations := { current := [], delayed := [] },
    events := [(7, Event.Pushed 1)] }

/-- C4 witness: stepping `teardownDemoState` unregisters dataflow 0 and
removes channel 7 from the path map. -/
theorem dataflow_teardown_unregisters_channels_witness :
    mapFind (Worker.stepOrPark (some 0) teardownDemoState).2.1.dataflows 0 = none ∧
    mapFind (Worker.stepOrPark (some 0) teardownDemoState).2.1.paths 7 = none :=
  ⟨(dataflow_teardown_unregisters_channels (some 0) teardownDemoState 0
      ⟨0, some [], some (), [7]⟩ rfl (by decide) rfl rfl).1,
   (dataflow_teardown_unregisters_channels (some 0) teardownDemoState 0
      ⟨0, some [], some (), [7]⟩ rfl (by decide) rfl rfl).2.1 7 (by decide)⟩

/-- Across one scheduling loop, a path-map entry either persists unchanged or
some dataflow owning the channel was torn down during the loop (its registry
entry removed) and the path entry removed with it.  In particular scheduling
an owner whose `schedule()` reports incomplete leaves the entry in place. -/
theorem sched_paths_persist_or_teardown :
    ∀ (idxs : List Nat) (dfs : List (Nat × Wrapper)) (paths : List (Nat × List Nat))
      (ch : Nat) (addr : List Nat), mapFind paths ch = some addr →
      mapFind (scheduleDataflows idxs dfs paths).2.1 ch = some addr ∨
        ∃ idx w, mapFind dfs idx = some w ∧ ch ∈ w.channel_ids ∧
          mapFind (scheduleDataflows idxs dfs paths).1 idx = none ∧
          mapFind (scheduleDataflows idxs dfs paths).2.1 ch = none := by
  intro idxs
  induction idxs with
  | nil =>
    intro dfs paths ch addr hfind
    exact Or.inl hfind
  | cons j rest ih =>
    intro dfs paths ch addr hfind
    rw [scheduleDataflows]
    cases hfindj : mapFind dfs j with
    | none => exact ih dfs paths ch addr hfind
    | some wj =>
      by_cases hstep : (Wrapper.step wj).1 = true
      · simp only [hstep, if_true]
        rcases ih (mapInsert dfs j (Wrapper.step wj).2) paths ch addr hfind with
          hl | ⟨idx, w, hw, hch, hnone, hpnone⟩
        · exact Or.inl hl
        · rcases mapFind_insert_some _ _ _ _ _ hw with ⟨he, hv⟩ | hw'
          · subst he
            rw [hv, Wrapper.step_channel_ids] at hch
            exact Or.inr ⟨idx, wj, hfindj, hch, hnone, hpnone⟩
          · exact Or.inr ⟨idx, w, hw', hch, hnone, hpnone⟩
      · simp only [hstep, Bool.false_eq_true, if_false]
        by_cases hmem : ch ∈ (Wrapper.step wj).2.channel_ids
        · refine Or.inr ⟨j, wj, hfindj, ?_, ?_, ?_⟩
          · rwa [Wrapper.step_channel_ids] at hmem
          · exact sched_dfs_none_preserved _ _ _ _ (mapFind_remove_self _ _)
          · exact sched_paths_none_preserved _ _ _ _ (mapFind_foldl_remove_mem _ _ _ hmem)
        · have hfind' :
              mapFind ((Wrapper.step wj).2.channel_ids.foldl mapRemove paths) ch =
                some addr := by
            rw [mapFind_foldl_remove_not_mem _ _ _ hmem]
            exact hfind
          rcases ih (mapRemove dfs j) _ ch addr hfind' with
            hl | ⟨idx, w, hw, hch, hnone, hpnone⟩
          · exact Or.inl hl
          · exact Or.inr ⟨idx, w, mapFind_remove_some _ _ _ _ hw, hch, hnone, hpnone⟩

/-- C6: after `allocate(id, path)` or `pipeline(id, path)` the channel-id to
path map holds exactly one entry mapping `id` to `path`; the entry survives
any allocation of a different id and any dataflow construction not re-using
the id; across every step it persists — including steps that schedule the
owning dataflow while it remains incomplete — unless that step tears down a
dataflow owning the id, in which case (and only then) it is removed. -/
theorem paths_entry_lifecycle :
    (∀ (id : Nat) (addr : List Nat) (s s' : WorkerState),
      Worker.allocate id addr s = .ok s' →
      mapFind s'.paths id = some addr ∧ countKey s'.paths id = 1) ∧
    (∀ (id : Nat) (addr : List Nat) (s s' : WorkerState),
      Worker.pipeline id addr s = .ok s' →
      mapFind s'.paths id = some addr ∧ countKey s'.paths id = 1) ∧
    (∀ (id : Nat) (addr : List Nat) (id2 : Nat) (addr2 : List Nat) (s s' : WorkerState),
      id2 ≠ id → mapFind s.paths id = some addr →
      Worker.allocate id2 addr2 s = .ok s' → mapFind s'.paths id = some addr) ∧
    (∀ (id : Nat) (addr : List Nat) (id2 : Nat) (addr2 : List Nat) (s s' : WorkerState),
      id2 ≠ id → mapFind s.paths id = some addr →
      Worker.pipeline id2 addr2 s = .ok s' → mapFind s'.paths id = some addr) ∧
    (∀ (id : Nat) (addr : List Nat) (chans : List (Nat × List Nat))
        (behavior : List Bool) (s s' : WorkerState),
      (∀ c ∈ chans, c.1 ≠ id) → mapFind s.paths id = some addr →
      Worker.dataflowCore chans behavior s = .ok s' → mapFind s'.paths id = some addr) ∧
    (∀ (id : Nat) (addr : List Nat) (d : Option Nat) (s : WorkerState),
      mapFind s.paths id = some addr →
      mapFind (Worker.stepOrPark d s).2.1.paths id = some addr ∨
        ∃ idx w, mapFind s.dataflows idx = some w ∧ id ∈ w.channel_ids ∧
          mapFind (Worker.stepOrPark d s).2.1.dataflows idx = none ∧
          mapFind (Worker.stepOrPark d s).2.1.paths id = none) ∧
    (∀ (id : Nat) (d : Option Nat) (s : WorkerState) (idx : Nat) (w : Wrapper),
      Worker.parkCondition d (Worker.preSchedule s).1 = false →
      idx ∈ ((Worker.preSchedule s).1.activations.extractRoot).1 →
      mapFind s.dataflows idx = some w → (Wrapper.step w).1 = false →
      id ∈ w.channel_ids →
      mapFind (Worker.stepOrPark d s).2.1.paths id = none) := by
  refine ⟨?_, ?_, ?_, ?_, ?_, ?_, ?_⟩
  · intro id addr s s' h
    obtain ⟨-, hpaths, -, -⟩ := allocate_ok id addr s s' h
    rw [hpaths]
    exact ⟨mapFind_insert_self _ _ _, countKey_insert_self _ _ _⟩
  · intro id addr s s' h
    obtain ⟨-, hpaths, -, -⟩ := pipeline_ok id addr s s' h
    rw [hpaths]
    exact ⟨mapFind_insert_self _ _ _, countKey_insert_self _ _ _⟩
  · intro id addr id2 addr2 s s' hne hfind h
    obtain ⟨-, hpaths, -, -⟩ := allocate_ok id2 addr2 s s' h
    rw [hpaths, mapFind_insert_ne _ _ _ _ (fun he => hne he.symm)]
    exact hfind
  · intro id addr id2 addr2 s s' hne hfind h
    obtain ⟨-, hpaths, -, -⟩ := pipeline_ok id2 addr2 s s' h
    rw [hpaths, mapFind_insert_ne _ _ _ _ (fun he => hne he.symm)]
    exact hfind
  · intro id addr chans behavior s s' hne hfind h
    obtain ⟨s1, hall, hpaths⟩ := dataflowCore_ok chans behavior s s' h
    rw [hpaths]
    exact allocateAll_paths_pre chans
      { s with dataflowCounter := s.dataflowCounter + 1,
               identifiers := s.identifiers + 1 } s1 id addr hne hfind hall
  · intro id addr d s hfind
    by_cases hc : Worker.parkCondition d (Worker.preSchedule s).1 = true
    · rw [stepOrPark_state_park d s hc, preSchedule_paths]
      exact Or.inl hfind
    · have hcf : Worker.parkCondition d (Worker.preSchedule s).1 = false :=
        Bool.not_eq_true _ ▸ hc
      rw [stepOrPark_paths_sched d s hcf, stepOrPark_dataflows_sched d s hcf]
      have hfind0 : mapFind (Worker.preSchedule s).1.paths id = some addr := by
        rw [preSchedule_paths]
        exact hfind
      rcases sched_paths_persist_or_teardown
          ((Worker.preSchedule s).1.activations.extractRoot).1
          (Worker.preSchedule s).1.dataflows (Worker.preSchedule s).1.paths
          id addr hfind0 with hl | ⟨idx, w, hw, hch, hnone, hpnone⟩
      · exact Or.inl hl
      · refine Or.inr ⟨idx, w, ?_, hch, hnone, hpnone⟩
        rw [preSchedule_dataflows] at hw
        exact hw
  · intro id d s idx w hpark hsched hfind hdone hch
    have hfind' : mapFind (Worker.preSchedule s).1.dataflows idx = some w := by
      rw [preSchedule_dataflows]
      exact hfind
    rw [stepOrPark_paths_sched d s hpark]
    exact (sched_complete _ _ _ idx w hsched hfind' hdone).2.1 id hch

/-- A worker with one registered channel path `5 ↦ [1, 2]` whose owning
dataflow (index 0) is activated and will report incomplete on its next
`schedule()` call — so the step schedules the owner without tearing it
down. -/
def lifecycleDemoState : WorkerState :=
  { paths := [(5, [1, 2])], tempChannelIds := [],
    dataflows := [(0, ⟨0, some [true], some (), [5]⟩)],
    dataflowCounter := 1, identifiers := 1,
    activations := { current := [[0]], delayed := [] }, events := [] }

/-- C6 witness: stepping a worker whose incomplete owning dataflow is
scheduled either preserves the path entry for channel 5 or tears down an
owner — and here the owner survives, so the entry persists. -/
theorem paths_entry_lifecycle_witness :
    mapFind (Worker.stepOrPark (some 0) lifecycleDemoState).2.1.paths 5 = some [1, 2] ∨
      ∃ idx w, mapFind lifecycleDemoState.dataflows idx = some w ∧ 5 ∈ w.channel_ids ∧
        mapFind (Worker.stepOrPark (some 0) lifecycleDemoState).2.1.dataflows idx = none ∧
        mapFind (Worker.stepOrPark (some 0) lifecycleDemoState).2.1.paths 5 = none :=
  paths_entry_lifecycle.2.2.2.2.2.1 5 [1, 2] (some 0) lifecycleDemoState rfl

/-!  ## Non-empty address invariants  -/

theorem applyOp_nonempty (op : Op) (s s' : WorkerState)
    (hs : ∀ p ∈ s.paths, p.2 ≠ ([] : List Nat)) (h : applyOp op s = .ok s') :
    ∀ p ∈ s'.paths, p.2 ≠ [] := by
  cases op with
  | alloc id addr =>
    obtain ⟨hne, hpaths, -, -⟩ := allocate_ok id addr s s' h
    intro p hp
    rw [hpaths] at hp
    rcases mem_mapInsert _ _ _ _ hp with hp | hp
    · rw [hp]
      exact hne
    · exact hs p hp
  | pipe id addr =>
    obtain ⟨hne, hpaths, -, -⟩ := pipeline_ok id addr s s' h
    intro p hp
    rw [hpaths] at hp
    rcases mem_mapInsert _ _ _ _ hp with hp | hp
    · rw [hp]
      exact hne
    · exact hs p hp
  | dataflow chans behavior =>
    obtain ⟨s1, hall, hpaths⟩ := dataflowCore_ok chans behavior s s' h
    intro p hp
    rw [hpaths] at hp
    exact allocateAll_nonempty chans
      { s with dataflowCounter := s.dataflowCounter + 1,
               identifiers := s.identifiers + 1 } s1 hs hall p hp
  | step d =>
    injection h with h
    subst h
    intro p hp
    exact hs p (stepOrPark_paths_subset d s p hp)
  | postEvent c e =>
    injection h with h
    subst h
    exact hs

theorem runOps_nonempty :
    ∀ (ops : List Op) (s s' : WorkerState),
      (∀ p ∈ s.paths, p.2 ≠ ([] : List Nat)) →
      runOps ops s = .ok s' → ∀ p ∈ s'.paths, p.2 ≠ [] := by
  intro ops
  induction ops with
  | nil =>
    intro s s' hs h
    rw [runOps] at h
    injection h with h
    subst h
    exact hs
  | cons op rest ih =>
    intro s s' hs h
    rw [runOps] at h
    cases hop : applyOp op s with
    | error e => rw [hop] at h; cases h
    | ok smid =>
      rw [hop] at h
      exact ih smid s' (applyOp_nonempty op s smid hs hop) h

/-- C8: `allocate` and `pipeline` reject an empty address path with a panic
before mutating any state, so along any panic-free run from a fresh worker
every entry of the channel-id to path map has a non-empty path. -/
theorem nonempty_address_paths :
    (∀ (id : Nat) (s : WorkerState),
      Worker.allocate id [] s = .error "Unacceptable address: Length zero") ∧
    (∀ (id : Nat) (s : WorkerState),
      Worker.pipeline id [] s = .error "Unacceptable address: Length zero") ∧
    (∀ (ops : List Op) (s : WorkerState), runOps ops Worker.new = .ok s →
      s.paths.all (fun p => !p.2.isEmpty) = true) := by
  refine ⟨fun id s => rfl, fun id s => rfl, ?_⟩
  intro ops s h
  have hinv := runOps_nonempty ops Worker.new s (by intro p hp; cases hp) h
  rw [List.all_eq_true]
  intro p hp
  exact (bnot_isEmpty_iff _).mpr (hinv p hp)

/-- The worker state reached from `Worker.new` by allocating channel 3 at path
`[1]` and taking one step. -/
def nonemptyDemoState : WorkerState :=
  { paths := [(3, [1])], tempChannelIds := [3], dataflows := [],
    dataflowCounter := 0, identifiers := 0,
    activations := { current := [], delayed := [] }, events := [] }

/-- C8 witness: a concrete panic-free run leaves only non-empty paths. -/
theorem nonempty_address_paths_witness :
    nonemptyDemoState.paths.all (fun p => !p.2.isEmpty) = true :=
  nonempty_address_paths.2.2 [Op.alloc 3 [1], Op.step (some 0)] nonemptyDemoState rfl

/-!  ## Bootstrap ordering  -/

theorem bootstrapRangesLoop_kinds :
    ∀ (scopeId : Nat) (rounds : List (List Nat × List MissingRange))
      (todo : List Nat) (t : List BAction),
      bootstrapRangesLoop scopeId rounds todo = some t →
      ∀ a ∈ t, a = BAction.receiveCall ∨
        ∃ r, a = BAction.requestRange scopeId r ∨ a = BAction.applyRange scopeId r := by
  intro scopeId rounds
  induction rounds with
  | nil =>
    intro todo t h a ha
    cases todo with
    | nil =>
      rw [bootstrapRangesLoop] at h
      injection h with h
      subst h
      cases ha
    | cons x xs =>
      rw [bootstrapRangesLoop] at h
      cases h
  | cons round rest ih =>
    intro todo t h a ha
    cases todo with
    | nil =>
      rw [bootstrapRangesLoop] at h
      injection h with h
      subst h
      cases ha
    | cons x xs =>
      obtain ⟨resolved, ranges⟩ := round
      rw [bootstrapRangesLoop] at h
      cases hrec : bootstrapRangesLoop scopeId rest
          ((x :: xs).filter (fun y => !(resolved.contains y))) with
      | none =>
        rw [hrec] at h
        cases h
      | some t' =>
        rw [hrec] at h
        simp only [Option.map_some'] at h
        injection h with h
        subst h
        rcases List.mem_cons.mp ha with ha | ha
        · exact Or.inl ha
        rcases List.mem_append.mp ha with ha | ha
        · obtain ⟨r, -, hr⟩ := List.mem_flatMap.mp ha
          rcases List.mem_cons.mp hr with hr | hr
          · exact Or.inr ⟨r, Or.inl hr⟩
          rcases List.mem_cons.mp hr with hr | hr
          · exact Or.inr ⟨r, Or.inr hr⟩
          · cases hr
        · exact ih _ _ hrec a ha

theorem processClient_shape (c : ProgcasterClient) (t : List BAction)
    (h : processClient c = some t) :
    ∃ body, t = body ++ [BAction.applyStashed c.id] ∧
      ∀ a ∈ body, a = BAction.receiveCall ∨
        ∃ r, a = BAction.requestRange c.id r ∨ a = BAction.applyRange c.id r := by
  rw [processClient] at h
  cases hl : bootstrapRangesLoop c.id c.rounds c.workerIndices with
  | none =>
    rw [hl] at h
    cases h
  | some u =>
    rw [hl] at h
    simp only [Option.map_some'] at h
    injection h with h
    exact ⟨u, h.symm, bootstrapRangesLoop_kinds c.id c.rounds c.workerIndices u hl⟩

theorem processClients_shape :
    ∀ (clients : List ProgcasterClient) (t : List BAction),
      processClients clients = some t →
      ∃ cts : List (List BAction), t = cts.flatten ∧
        List.Forall₂ (fun (c : ProgcasterClient) (u : List BAction) =>
          ∃ body, u = body ++ [BAction.applyStashed c.id] ∧
            ∀ a ∈ body, a = BAction.receiveCall ∨
              ∃ r, a = BAction.requestRange c.id r ∨ a = BAction.applyRange c.id r)
          clients cts := by
  intro clients
  induction clients with
  | nil =>
    intro t h
    rw [processClients] at h
    injection h with h
    subst h
    exact ⟨[], rfl, List.Forall₂.nil⟩
  | cons c rest ih =>
    intro t h
    rw [processClients] at h
    cases hc : processClient c with
    | none =>
      rw [hc] at h
      cases h
    | some u =>
      cases hr : processClients rest with
      | none =>
        rw [hc, hr] at h
        cases h
      | some us =>
        rw [hc, hr] at h
        injection h with h
        obtain ⟨cts, hcts, hfa⟩ := ih us hr
        refine ⟨u :: cts, ?_, List.Forall₂.cons (processClient_shape c u hc) hfa⟩
        rw [← h, hcts]
        rfl

/-- C3: whenever `Worker::bootstrap` runs with a bootstrap endpoint and
completes, it returns `true`; all received progress-state snapshots are
installed first, and then, broadcaster by broadcaster, the missing ranges are
requested and applied, with the stashed progress messages of each broadcaster
applied only after every replay range of that broadcaster. -/
theorem bootstrap_replay_precedes_stashed (ep : BootstrapEndpoint)
    (clients : List ProgcasterClient) (b : Bool) (tr : List BAction)
    (h : Worker.bootstrap (some ep) clients = some (b, tr)) :
    b = true ∧
    ∃ cts : List (List BAction),
      tr = ep.progcasterStates.map (fun p => BAction.installState p.1) ++ cts.flatten ∧
      List.Forall₂ (fun (c : ProgcasterClient) (u : List BAction) =>
        ∃ body, u = body ++ [BAction.applyStashed c.id] ∧
          ∀ a ∈ body, a = BAction.receiveCall ∨
            ∃ r, a = BAction.requestRange c.id r ∨ a = BAction.applyRange c.id r)
        clients cts := by
  rw [Worker.bootstrap] at h
  cases hp : processClients clients with
  | none =>
    rw [hp] at h
    cases h
  | some t =>
    rw [hp] at h
    simp only [Option.map_some'] at h
    injection h with h
    injection h with h1 h2
    obtain ⟨cts, hcts, hfa⟩ := processClients_shape clients t hp
    refine ⟨h1.symm, cts, ?_, hfa⟩
    rw [← h2, hcts]

/-- The bootstrap endpoint of a demo joiner: one progcaster state (scope 1,
blob 42). -/
def bootstrapDemoEndpoint : BootstrapEndpoint := ⟨[(1, 42)]⟩

/-- The demo joiner's sole progcaster handle: scope 1, one sender (worker 0),
resolved in one round with a single missing range. -/
def bootstrapDemoClients : List ProgcasterClient :=
  [⟨1, [0], [([0], [⟨0, 0, 3⟩])]⟩]

/-- The trace produced by the demo bootstrap. -/
def bootstrapDemoTrace : List BAction :=
  [BAction.installState 1, BAction.receiveCall,
   BAction.requestRange 1 ⟨0, 0, 3⟩, BAction.applyRange 1 ⟨0, 0, 3⟩,
   BAction.applyStashed 1]

/-- C3 witness: the demo bootstrap completes and its trace decomposes into the
installed snapshots followed by the per-broadcaster replay-then-stash bodies. -/
theorem bootstrap_replay_precedes_stashed_witness :
    true = true ∧
    ∃ cts : List (List BAction),
      bootstrapDemoTrace =
        bootstrapDemoEndpoint.progcasterStates.map
          (fun p => BAction.installState p.1) ++ cts.flatten ∧
      List.Forall₂ (fun (c : ProgcasterClient) (u : List BAction) =>
        ∃ body, u = body ++ [BAction.applyStashed c.id] ∧
          ∀ a ∈ body, a = BAction.receiveCall ∨
            ∃ r, a = BAction.requestRange c.id r ∨ a = BAction.applyRange c.id r)
        bootstrapDemoClients cts :=
  bootstrap_replay_precedes_stashed bootstrapDemoEndpoint bootstrapDemoClients
    true bootstrapDemoTrace rfl


/-- C2 witness: on a worker holding one incomplete dataflow and no pending
activation, `step_or_park(None)` parks. -/
theorem step_or_park_parks_iff_witness :
    Action.park none ∈ (Worker.stepOrPark none parkableState).2.2 :=
  (step_or_park_parks_iff.1 none parkableState).mpr ⟨rfl, by simp [parkableState], by simp⟩

/-- C1 witness: the call sequence of a concrete step on a fresh worker. -/
theorem step_or_park_call_sequence_witness :
    ∃ middle,
      (Worker.stepOrPark (some 0) Worker.new).2.2 =
        [Action.rescale, Action.receive] ++
          (drainActivations Worker.new.events Worker.new.paths).map Action.activateAt ++
          [Action.advance] ++ middle ++ [Action.release] ∧
      (∀ a ∈ middle, a = Action.park (some 0) ∨ ∃ i, a = Action.scheduleStart i ∨
        a = Action.dropOperator i ∨ a = Action.dropResources i) ∧
      (Worker.stepOrPark (some 0) Worker.new).2.2.count Action.release = 1 ∧
      (Worker.stepOrPark (some 0) Worker.new).2.1.events = [] :=
  step_or_park_call_sequence (some 0) Worker.new

/-- C9 witness: with a predicate that is immediately false, the loop
terminates, so some iterate falsifies the predicate. -/
theorem step_while_terminates_iff_witness :
    ∃ n, (fun (_ : WorkerState) => false) (Worker.iterSteps n Worker.new) = false :=
  (step_while_terminates_iff (fun _ => false) Worker.new).1.mp ⟨0, Worker.new, rfl⟩

end Timely
